import Mathlib

/-!
Verification of the detection-fusion and export layer of the Computer-AI-Agent
pipeline.

The Python sources embedded here are `src/main.py` (id assignment, the
`IntelligentBBoxMerger.merge_detections` cleaning loop, `create_intelligent_merger`)
and `src/utils/pipeline_exporter.py` (`create_enhanced_seraphine_structure`).
Python dicts holding detections are modelled as a structure with one `Option`
field per key the pipeline reads or writes (`none` = key absent) plus an
`extra` association list for the remaining keys; JSON-like values are the
`JVal` inductive; `float` coordinates and confidences are modelled as `ℚ`.

The parent class `utils/bbox_merger.py` (`BBoxMerger`) and the configuration
loader are not part of the sources; where a claim depends on them they are
modelled from the specification, and each such definition carries a doc
comment starting `Modelled from the spec:`.
-/

set_option maxHeartbeats 1000000

/-- A JSON-like value as stored in a detection dict: a string, a list of
numbers (bounding boxes), or Python's `None`. -/
inductive JVal where
  | str : String → JVal
  | nums : List ℚ → JVal
  | null : JVal
deriving DecidableEq

/-- A bounding box `[x_min, y_min, x_max, y_max]` in pixel coordinates,
origin top-left (the 4-element list the Python code stores under "bbox"). -/
structure Box4 where
  x1 : ℚ
  y1 : ℚ
  x2 : ℚ
  y2 : ℚ
deriving DecidableEq

/-- A detection record (a Python dict). Each named field models one key the
pipeline reads or writes; `none` means the key is absent. `extra` holds any
remaining keys in insertion order. -/
structure Detection where
  y_id : Option String := none
  o_id : Option String := none
  m_id : Option String := none
  id : Option String := none
  bbox : Option Box4 := none
  type_ : Option String := none
  source : Option String := none
  confidence : Option ℚ := none
  extra : List (String × JVal) := []
deriving DecidableEq

/-- The decimal digit character for `d` (0-9), as Python's `str` renders it. -/
def digitChar10 (d : ℕ) : Char := Char.ofNat (48 + d)

/-- Little-endian base-10 digits with explicit fuel, so that the kernel can
evaluate it (it agrees with `Nat.digits 10`, see `natDigitsAux_eq_digits`). -/
def natDigitsAux : ℕ → ℕ → List ℕ
  | 0, _ => []
  | _ + 1, 0 => []
  | fuel + 1, n + 1 => (n + 1) % 10 :: natDigitsAux fuel ((n + 1) / 10)

/-- Little-endian base-10 digits of `k`. -/
def natDigits (k : ℕ) : List ℕ := natDigitsAux k k

/-- Decimal rendering of a natural number: Python's `str(k)` / `"%d" % k`. -/
def natStr (k : ℕ) : String :=
  if k = 0 then "0" else String.mk (((natDigits k).reverse).map digitChar10)

/-- Python's format `f"{k:03d}"`: the decimal rendering left-padded with `'0'`
to at least three characters. -/
def pad3 (k : ℕ) : String :=
  if (natStr k).length < 3 then
    String.mk (List.replicate (3 - (natStr k).length) '0' ++ (natStr k).data)
  else natStr k

/-- The numeric value of a decimal digit character. -/
def decVal (c : Char) : ℕ := c.toNat - 48

/-- Reads a decimal string back to a natural number; left inverse of `natStr`
and of `pad3`, used to prove both injective. -/
def strToNat (s : String) : ℕ := s.data.foldl (fun n c => 10 * n + decVal c) 0

/-- Python's `f"{group_id}_{k}"` (`src/utils/pipeline_exporter.py` line 38):
the key of the k-th member record of a group. -/
def slotId (group_id : String) (k : ℕ) : String := group_id ++ "_" ++ natStr k

/-- `src/main.py` `assign_intelligent_ids` (lines 80-105): the i-th YOLO
detection gets `y_id = f"Y{i+1:03d}"`, the i-th OCR detection gets
`o_id = f"O{i+1:03d}"`, and any pre-existing `id` key is deleted from every
detection of both sequences. -/
def assign_intelligent_ids (yolo_detections ocr_detections : List Detection) :
    List Detection × List Detection :=
  (yolo_detections.enum.map
      (fun p => { p.2 with y_id := some ("Y" ++ pad3 (p.1 + 1)), id := none }),
   ocr_detections.enum.map
      (fun p => { p.2 with o_id := some ("O" ++ pad3 (p.1 + 1)), id := none }))

/-- The field names excluded when copying leftover keys in the cleaning loop
(`src/main.py` lines 151-153). -/
def excludedFields : List String :=
  ["id", "merged_id", "merge_id", "source_ids", "relationship",
   "original_id", "yolo_id", "ocr_id", "y_id", "o_id", "m_id",
   "bbox", "type", "source", "confidence"]

/-- One iteration of the cleaning loop of
`IntelligentBBoxMerger.merge_detections` (`src/main.py` lines 124-159): a
fresh record with `m_id = f"M{i+1:03d}"`, source-dependent `y_id`/`o_id`
(the opposite id is the sentinel "NA", and both are "NA" for an unexpected
source), the ordered fields copied when present, and the remaining
non-excluded keys carried over. Reading `detection['source']` on a record
without that key would raise in Python; here a missing source falls into the
final (both-"NA") branch. -/
def cleanDetection (i : ℕ) (d : Detection) : Detection :=
  { m_id := some ("M" ++ pad3 (i + 1))
    y_id := if d.source = some "yolo" then some (d.y_id.getD ("Y" ++ pad3 (i + 1)))
            else some "NA"
    o_id := if d.source = some "ocr_det" then some (d.o_id.getD ("O" ++ pad3 (i + 1)))
            else some "NA"
    id := none
    bbox := d.bbox
    type_ := d.type_
    source := d.source
    confidence := d.confidence
    extra := d.extra.filter (fun kv => !(excludedFields.contains kv.1)) }

/-- The whole cleaning loop: `for i, detection in enumerate(merged_detections)`. -/
def cleanMerged (merged_detections : List Detection) : List Detection :=
  merged_detections.enum.map (fun p => cleanDetection p.1 p.2)

/-- `src/main.py` `run_parallel_detection_and_merge` lines 210-211: patch
`m_id = f"M{i+1:03d}"` onto each merged detection in order. -/
def updateMergedIds (merged_detections : List Detection) : List Detection :=
  merged_detections.enum.map (fun p => { p.2 with m_id := some ("M" ++ pad3 (p.1 + 1)) })

/-- A box object produced by the seraphine processor, with the attributes
`create_enhanced_seraphine_structure` reads (`src/utils/pipeline_exporter.py`
lines 37-52). `g_icon_name`/`g_brief` are `none` when the attribute is absent
(Python `getattr` with a default). -/
structure SeraphineBox where
  x1 : ℚ
  y1 : ℚ
  x2 : ℚ
  y2 : ℚ
  merged_id : String
  bbox_type : String
  source : String
  g_icon_name : Option String := none
  g_brief : Option String := none
deriving DecidableEq

/-- The part of the seraphine bbox processor the exporter reads: the ordered
mapping `final_groups` from group label to the group's ordered member boxes
(a Python dict, so its keys are pairwise distinct). -/
structure BBoxProcessor where
  final_groups : List (String × List SeraphineBox)
deriving DecidableEq

/-- The `seraphine_analysis` dict as read by the exporter: only its
`bbox_processor` entry is consulted (`none` = key absent or falsy). -/
structure SeraphineAnalysis where
  bbox_processor : Option BBoxProcessor
deriving DecidableEq

/-- The per-`m_id` lookup record built at
`src/utils/pipeline_exporter.py` lines 20-28. -/
structure OriginalRef where
  y_id : Option String
  o_id : Option String
  source : String
  type_ : String
deriving DecidableEq

/-- Builds one lookup record from a merged detection (`pipeline_exporter.py`
lines 23-28): `y_id`/`o_id` are stored as-is (possibly Python `None`),
`source`/`type` fall back to "unknown". -/
def originalRefOf (d : Detection) : OriginalRef :=
  { y_id := d.y_id
    o_id := d.o_id
    source := d.source.getD "unknown"
    type_ := d.type_.getD "unknown" }

/-- The dict `m_id_to_original` as a lookup function: the loop overwrites on a
repeated `m_id`, so the last matching detection wins. Building the dict reads
`detection['m_id']`, so detections without an `m_id` key (which would raise in
Python) never enter the map. -/
def mIdToOriginal (original_merged_detections : List Detection) (mid : String) :
    Option OriginalRef :=
  (original_merged_detections.reverse.find? (fun d => decide (d.m_id = some mid))).map
    originalRefOf

/-- A stored optional string rendered into the JSON record (`None` → null). -/
def optStr : Option String → JVal
  | some s => JVal.str s
  | none => JVal.null

/-- The record literal of `pipeline_exporter.py` lines 43-52, keys in source
order. `y_id`/`o_id` are the looked-up stored values (null when the `m_id`
lookup fails or the stored value was `None`); `type`/`source` fall back to the
box's own attributes when the lookup fails. -/
def exportRecordOf (original_merged_detections : List Detection) (b : SeraphineBox) :
    List (String × JVal) :=
  [("bbox", JVal.nums [b.x1, b.y1, b.x2, b.y2]),
   ("g_icon_name", JVal.str (b.g_icon_name.getD "unanalyzed")),
   ("g_brief", JVal.str (b.g_brief.getD "Not analyzed")),
   ("m_id", JVal.str b.merged_id),
   ("y_id", optStr ((mIdToOriginal original_merged_detections b.merged_id).bind
      (fun o => o.y_id))),
   ("o_id", optStr ((mIdToOriginal original_merged_detections b.merged_id).bind
      (fun o => o.o_id))),
   ("type", JVal.str (((mIdToOriginal original_merged_detections b.merged_id).map
      (fun o => o.type_)).getD b.bbox_type)),
   ("source", JVal.str (((mIdToOriginal original_merged_detections b.merged_id).map
      (fun o => o.source)).getD b.source))]

/-- `src/utils/pipeline_exporter.py` `create_enhanced_seraphine_structure`
(lines 10-54): returns the empty structure when `bbox_processor` is missing,
otherwise a structure keyed by group label, each group holding the records of
its member boxes keyed by `f"{group_id}_{i+1}"`. -/
def create_enhanced_seraphine_structure (seraphine_analysis : SeraphineAnalysis)
    (original_merged_detections : List Detection) :
    List (String × List (String × List (String × JVal))) :=
  match seraphine_analysis.bbox_processor with
  | none => []
  | some bp =>
      bp.final_groups.map (fun gb =>
        (gb.1, gb.2.enum.map (fun p =>
          (slotId gb.1 (p.1 + 1), exportRecordOf original_merged_detections p.2))))

/-- A concrete box used to instantiate the exporter theorems. -/
def boxEx : SeraphineBox :=
  { x1 := 0, y1 := 0, x2 := 10, y2 := 10
    merged_id := "M001", bbox_type := "icon", source := "yolo" }

/-- A concrete processor holding one group "H1" with one member. -/
def bpEx : BBoxProcessor := { final_groups := [("H1", [boxEx])] }

/-- A concrete seraphine analysis wrapping `bpEx`. -/
def saEx : SeraphineAnalysis := { bbox_processor := some bpEx }

/-- A concrete merged-detection list matching `boxEx`. -/
def detsEx : List Detection :=
  [{ m_id := some "M001", y_id := some "Y001", o_id := some "NA",
     source := some "yolo", type_ := some "icon" }]

/-- The concrete exported group produced from `bpEx`. -/
def gEx : String × List (String × List (String × JVal)) :=
  ("H1", [(slotId "H1" 1, exportRecordOf detsEx boxEx)])

/-- The concrete exported slot entry inside `gEx`. -/
def eEx : String × List (String × JVal) :=
  (slotId "H1" 1, exportRecordOf detsEx boxEx)

/-- Modelled from the spec: the fusion configuration of `utils/bbox_merger.py`
(`BBoxMerger.__init__`, not under the sources): `iouThreshold`,
`containmentThreshold` and `minArea`. -/
structure MergerConfig where
  iou_threshold : ℚ
  containment_threshold : ℚ
  min_area : ℚ
deriving DecidableEq

/-- Area of a box, width times height. -/
def boxArea (b : Box4) : ℚ := (b.x2 - b.x1) * (b.y2 - b.y1)

/-- Intersection area of two boxes (zero when they do not overlap). -/
def interArea (a b : Box4) : ℚ :=
  max 0 (min a.x2 b.x2 - max a.x1 b.x1) * max 0 (min a.y2 b.y2 - max a.y1 b.y1)

/-- Modelled from the spec: intersection-over-union, the ratio of overlapping
area to union area of two boxes. -/
def iouQ (a b : Box4) : ℚ :=
  interArea a b / (boxArea a + boxArea b - interArea a b)

/-- Modelled from the spec: containment, intersection area divided by the
smaller of the two boxes' areas. -/
def containQ (a b : Box4) : ℚ := interArea a b / min (boxArea a) (boxArea b)

/-- The box stored in a detection (degenerate when absent; a detection with
no box has area 0 and is discarded by any positive `minArea`). -/
def detBox (d : Detection) : Box4 := d.bbox.getD ⟨0, 0, 0, 0⟩

/-- Area of a detection's box. -/
def detArea (d : Detection) : ℚ := boxArea (detBox d)

/-- Confidence of a detection (0 when absent). -/
def detConf (d : Detection) : ℚ := d.confidence.getD 0

/-- Modelled from the spec: a pair is a duplicate pair when IoU is at least
`iouThreshold` or containment is at least `containmentThreshold`. -/
def isDupPair (iouT contT : ℚ) (a b : Detection) : Prop :=
  iouT ≤ iouQ (detBox a) (detBox b) ∨ contT ≤ containQ (detBox a) (detBox b)

instance isDupPair.instDecidable (iouT contT : ℚ) (a b : Detection) :
    Decidable (isDupPair iouT contT a b) :=
  inferInstanceAs (Decidable (iouT ≤ iouQ (detBox a) (detBox b)
    ∨ contT ≤ containQ (detBox a) (detBox b)))

/-- Modelled from the spec: step 1 of fusion discards every raw detection
with area below `minArea`. -/
def keepDets (cfg : MergerConfig) (ds : List Detection) : List Detection :=
  ds.filter (fun d => decide (cfg.min_area ≤ detArea d))

/-- Modelled from the spec: the duplicate relation on the kept pool (object
detections at positions below `ky`, text detections above), holding only for
cross-source duplicate pairs. -/
def dupRel (iouT contT : ℚ) (ky : ℕ) (pool : List Detection)
    (i j : Fin pool.length) : Prop :=
  (((i : ℕ) < ky) ↔ (ky ≤ (j : ℕ))) ∧ isDupPair iouT contT (pool.get i) (pool.get j)

instance dupRel.instDecidable (iouT contT : ℚ) (ky : ℕ) (pool : List Detection)
    (i j : Fin pool.length) : Decidable (dupRel iouT contT ky pool i j) :=
  inferInstanceAs (Decidable (_ ∧ _))

/-- Modelled from the spec: the bipartite duplicate graph of fusion step 4. -/
def dupGraph (iouT contT : ℚ) (ky : ℕ) (pool : List Detection) :
    SimpleGraph (Fin pool.length) :=
  SimpleGraph.fromRel (dupRel iouT contT ky pool)

instance dupGraph.instAdjDecidable (iouT contT : ℚ) (ky : ℕ) (pool : List Detection) :
    DecidableRel (dupGraph iouT contT ky pool).Adj :=
  fun i j => decidable_of_iff _ (SimpleGraph.fromRel_adj (dupRel iouT contT ky pool) i j).symm

/-- Modelled from the spec: the deterministic tie-break key of fusion step 4,
ordered lexicographically — larger area first, then higher confidence, then
the object-detector source over the text-detector source, then the earlier
position in the original sequence. The last component makes the key
injective. -/
def rankOf (ky : ℕ) (pool : List Detection) (i : Fin pool.length) :
    ℚ ×ₗ (ℚ ×ₗ (ℕ ×ₗ ℕ)) :=
  toLex (-(detArea (pool.get i)),
    toLex (-(detConf (pool.get i)),
      toLex ((if (i : ℕ) < ky then 0 else 1), (i : ℕ))))

/-- Modelled from the spec: a kept detection survives when it is the
tie-break minimum of its connected duplicate group (a detection with no
duplicate partner is alone in its component and always survives). -/
def isSurvivor (iouT contT : ℚ) (ky : ℕ) (pool : List Detection)
    (i : Fin pool.length) : Bool :=
  decide (∀ j, (dupGraph iouT contT ky pool).Reachable i j →
    rankOf ky pool i ≤ rankOf ky pool j)

/-- Modelled from the spec: the surviving detections of the pool, emitted in
pool order (all object-sourced survivors in their original order, then all
text-sourced survivors in theirs). -/
def mergeCore (iouT contT : ℚ) (ky : ℕ) (pool : List Detection) : List Detection :=
  ((List.finRange pool.length).filter (fun i => isSurvivor iouT contT ky pool i)).map
    (fun i => pool.get i)

/-- Fusion statistics: counts in, counts out, count removed (observability
only). -/
structure FusionStats where
  total_input : ℕ
  total_output : ℕ
  removed : ℕ
deriving DecidableEq

/-- Modelled from the spec: `utils/bbox_merger.py` `BBoxMerger.merge_detections`
(not under the sources) — discard boxes below `minArea`, build the bipartite
duplicate graph from IoU/containment, resolve each connected duplicate group
to its tie-break survivor, and emit object-sourced survivors in original
order followed by text-sourced survivors, with every surviving record
preserved unchanged. -/
def BBoxMerger.merge_detections (cfg : MergerConfig) (yolo_detections ocr_detections : List Detection) :
    List Detection × FusionStats :=
  let pool := keepDets cfg yolo_detections ++ keepDets cfg ocr_detections
  let merged := mergeCore cfg.iou_threshold cfg.containment_threshold
    (keepDets cfg yolo_detections).length pool
  (merged,
   { total_input := yolo_detections.length + ocr_detections.length
     total_output := merged.length
     removed := yolo_detections.length + ocr_detections.length - merged.length })

/-- `src/main.py` `IntelligentBBoxMerger.merge_detections` (lines 113-161):
call the parent merge, then rebuild each merged detection through the
cleaning loop; the merge statistics pass through unchanged. -/
def IntelligentBBoxMerger.merge_detections (cfg : MergerConfig)
    (yolo_detections ocr_detections : List Detection) :
    List Detection × FusionStats :=
  (cleanMerged (BBoxMerger.merge_detections cfg yolo_detections ocr_detections).1,
   (BBoxMerger.merge_detections cfg yolo_detections ocr_detections).2)

/-- The configuration error of the spec's taxonomy: invalid thresholds,
raised before any processing starts. -/
inductive ConfigurationError where
  | mk : String → ConfigurationError
deriving DecidableEq

/-- The configuration dict as read by `create_intelligent_merger`: only
`merger_iou_threshold` is consulted (`none` = key absent). -/
structure PipelineConfig where
  merger_iou_threshold : Option ℚ := none
deriving DecidableEq

/-- Modelled from the spec: constructing a `BBoxMerger` validates its numeric
configuration — thresholds and fractions must lie in `[0,1]` and the minimum
area must be strictly positive — failing fast with a `ConfigurationError`
before any detection or fusion processing. (`utils/bbox_merger.py` is not
under the sources; the validation is the spec's configuration contract.) -/
def BBoxMerger.make (iouT contT minA : ℚ) : Except ConfigurationError MergerConfig :=
  if 0 ≤ iouT ∧ iouT ≤ 1 then
    if 0 ≤ contT ∧ contT ≤ 1 then
      if 0 < minA then
        Except.ok { iou_threshold := iouT, containment_threshold := contT, min_area := minA }
      else Except.error (ConfigurationError.mk "min_area must be positive")
    else Except.error (ConfigurationError.mk "containment_threshold out of range")
  else Except.error (ConfigurationError.mk "iou_threshold out of range")

/-- `src/main.py` `create_intelligent_merger` (lines 163-168): construct the
merger with `config.get("merger_iou_threshold", 0.05)`, containment threshold
0.8 and minimum area 1.0. -/
def create_intelligent_merger (config : PipelineConfig) :
    Except ConfigurationError MergerConfig :=
  BBoxMerger.make (config.merger_iou_threshold.getD (1 / 20)) (4 / 5) 1

/-- The per-element relation of the cleaning loop: the emitted detection
keeps the originating detection's source; a yolo-sourced element carries the
originating `y_id` with `o_id = "NA"`, an ocr-sourced element carries the
originating `o_id` with `y_id = "NA"`. -/
def cleanedFrom (d c : Detection) : Prop :=
  c.source = d.source
  ∧ (d.source = some "yolo" → ∀ y, d.y_id = some y → c.y_id = some y ∧ c.o_id = some "NA")
  ∧ (d.source = some "ocr_det" → ∀ o, d.o_id = some o → c.o_id = some o ∧ c.y_id = some "NA")

/-- A concrete yolo-tagged raw detection used to instantiate the fusion
theorems. -/
def dEx : Detection := { source := some "yolo" }

/-- A concrete merger configuration used to instantiate the fusion
theorems. -/
def mcfgEx : MergerConfig :=
  { iou_threshold := 0, containment_threshold := 1, min_area := 1 }

/-- The fueled digit function agrees with `Nat.digits 10` when the fuel
dominates the number. -/
theorem natDigitsAux_eq_digits : ∀ fuel n, n ≤ fuel → natDigitsAux fuel n = Nat.digits 10 n := by
  intro fuel
  induction fuel with
  | zero =>
      intro n hn
      have hn0 : n = 0 := Nat.le_zero.mp hn
      subst hn0
      simp [natDigitsAux]
  | succ f ih =>
      intro n hn
      match n with
      | 0 => simp [natDigitsAux]
      | m + 1 =>
          have hdiv : (m + 1) / 10 < m + 1 := Nat.div_lt_self (Nat.succ_pos m) (by norm_num)
          rw [natDigitsAux, ih ((m + 1) / 10) (by omega),
            Nat.digits_def' (by norm_num : (1:ℕ) < 10) (Nat.succ_pos m)]

/-- The digits used by `natStr` are the base-10 digits. -/
theorem natDigits_eq_digits (k : ℕ) : natDigits k = Nat.digits 10 k :=
  natDigitsAux_eq_digits k k le_rfl

/-- Folding the base-10 accumulator over a big-endian digit list. -/
theorem foldl_base10 (l : List ℕ) (a : ℕ) :
    l.foldl (fun n d => 10 * n + d) a = a * 10 ^ l.length + Nat.ofDigits 10 l.reverse := by
  induction l generalizing a with
  | nil => simp [Nat.ofDigits]
  | cons d t ih =>
      rw [List.foldl_cons, ih, List.reverse_cons, Nat.ofDigits_append, Nat.ofDigits_singleton,
        List.length_cons, List.length_reverse]
      ring

/-- Decoding a digit character gives back the digit. -/
theorem decVal_digitChar10 {d : ℕ} (hd : d < 10) : decVal (digitChar10 d) = d := by
  interval_cases d <;> decide

/-- Digit characters are never the underscore separator. -/
theorem digitChar10_ne_underscore {d : ℕ} (hd : d < 10) : digitChar10 d ≠ '_' := by
  interval_cases d <;> decide

/-- Folding the character decoder over encoded digits is folding over the digits. -/
theorem foldl_decode (l : List ℕ) (h : ∀ d ∈ l, d < 10) (a : ℕ) :
    l.foldl (fun n d => 10 * n + decVal (digitChar10 d)) a = l.foldl (fun n d => 10 * n + d) a := by
  induction l generalizing a with
  | nil => rfl
  | cons d t ih =>
      rw [List.foldl_cons, List.foldl_cons, decVal_digitChar10 (h d (List.mem_cons_self d t))]
      exact ih (fun x hx => h x (List.mem_cons_of_mem d hx)) _

/-- Reading back the decimal rendering recovers the number. -/
theorem strToNat_natStr (k : ℕ) : strToNat (natStr k) = k := by
  rcases Nat.eq_zero_or_pos k with hk | hk
  · subst hk; decide
  · have hk0 : k ≠ 0 := hk.ne'
    have hbound : ∀ d ∈ (natDigits k).reverse, d < 10 := by
      intro d hd
      rw [List.mem_reverse, natDigits_eq_digits] at hd
      exact Nat.digits_lt_base (by norm_num) hd
    show strToNat (natStr k) = k
    rw [natStr, if_neg hk0]
    show ((natDigits k).reverse.map digitChar10).foldl (fun n c => 10 * n + decVal c) 0 = k
    rw [List.foldl_map, foldl_decode _ hbound, foldl_base10, List.reverse_reverse,
      natDigits_eq_digits, Nat.ofDigits_digits]
    ring

/-- Leading zero characters do not change the accumulated value zero. -/
theorem foldl_zero_chars (m : ℕ) :
    (List.replicate m '0').foldl (fun n c => 10 * n + decVal c) 0 = 0 := by
  induction m with
  | zero => rfl
  | succ m ih =>
      rw [List.replicate_succ, List.foldl_cons]
      have h0 : (10 * 0 + decVal '0') = 0 := by decide
      rw [h0]
      exact ih

/-- Reading back the zero-padded rendering recovers the number. -/
theorem strToNat_pad3 (k : ℕ) : strToNat (pad3 k) = k := by
  rw [pad3]
  by_cases h : (natStr k).length < 3
  · rw [if_pos h]
    show (List.replicate (3 - (natStr k).length) '0' ++ (natStr k).data).foldl
        (fun n c => 10 * n + decVal c) 0 = k
    rw [List.foldl_append, foldl_zero_chars]
    exact strToNat_natStr k
  · rw [if_neg h]
    exact strToNat_natStr k

/-- Python's `f"{k:03d}"` is injective in `k`. -/
theorem pad3_injective : Function.Injective pad3 :=
  Function.LeftInverse.injective strToNat_pad3

/-- Python's `str(k)` is injective in `k`. -/
theorem natStr_injective : Function.Injective natStr :=
  Function.LeftInverse.injective strToNat_natStr

/-- The zero-padded rendering is at least three characters long. -/
theorem pad3_length (k : ℕ) : 3 ≤ (pad3 k).length := by
  rw [pad3]
  by_cases h : (natStr k).length < 3
  · rw [if_pos h]
    show 3 ≤ (List.replicate (3 - (natStr k).length) '0' ++ (natStr k).data).length
    rw [List.length_append, List.length_replicate]
    have : (natStr k).data.length = (natStr k).length := rfl
    omega
  · rw [if_neg h]
    omega

/-- A one-character source tag followed by the padded number is never the
sentinel "NA". -/
theorem tag_pad3_ne_NA (s : String) (hs : s.length = 1) (k : ℕ) : s ++ pad3 k ≠ "NA" := by
  intro h
  have hlen := congrArg String.length h
  rw [String.length_append, hs] at hlen
  have h3 := pad3_length k
  have : ("NA").length = 2 := by decide
  omega

/-- Decimal renderings contain no underscore. -/
theorem natStr_no_underscore (k : ℕ) : '_' ∉ (natStr k).data := by
  rw [natStr]
  by_cases hk : k = 0
  · rw [if_pos hk]; decide
  · rw [if_neg hk]
    intro hmem
    show False
    rcases List.mem_map.mp hmem with ⟨d, hd, hud⟩
    rw [List.mem_reverse, natDigits_eq_digits] at hd
    exact digitChar10_ne_underscore (Nat.digits_lt_base (by norm_num) hd) hud

/-- Splitting a character list at a separator that occurs in neither fragment
is unambiguous. -/
theorem append_sep_inj : ∀ {l1 : List Char} {r1 : List Char} {l2 r2 : List Char},
    '_' ∉ l1 → '_' ∉ l2 → l1 ++ '_' :: r1 = l2 ++ '_' :: r2 → l1 = l2 ∧ r1 = r2 := by
  intro l1
  induction l1 with
  | nil =>
      intro r1 l2 r2 _ h2 he
      cases l2 with
      | nil => exact ⟨rfl, by simpa using he⟩
      | cons c t =>
          exfalso
          have hc : c = '_' := by
            have := congrArg (fun l => l.head?) he
            simpa using this.symm
          exact h2 (hc ▸ List.mem_cons_self c t)
  | cons c t ih =>
      intro r1 l2 r2 h1 h2 he
      cases l2 with
      | nil =>
          exfalso
          have hc : c = '_' := by
            have := congrArg (fun l => l.head?) he
            simpa using this
          exact h1 (hc ▸ List.mem_cons_self c t)
      | cons c' t' =>
          have hc : c = c' := by
            have := congrArg (fun l => l.head?) he
            simpa using this
          have ht : t ++ '_' :: r1 = t' ++ '_' :: r2 := by
            have := congrArg List.tail he
            simpa using this
          have h1' : '_' ∉ t := fun hx => h1 (List.mem_cons_of_mem c hx)
          have h2' : '_' ∉ t' := fun hx => h2 (List.mem_cons_of_mem c' hx)
          rcases ih h1' h2' ht with ⟨hte, hre⟩
          exact ⟨by rw [hc, hte], hre⟩

/-- Appending to a fixed string on the left is cancellative. -/
theorem string_append_left_cancel {p s t : String} (h : p ++ s = p ++ t) : s = t := by
  have hd := congrArg String.data h
  rw [String.data_append, String.data_append] at hd
  exact String.ext (List.append_cancel_left hd)

/-- A slot key determines the group label and the 1-based position: the part
after the last underscore is an underscore-free decimal rendering. -/
theorem slotId_inj {g1 g2 : String} {a b : ℕ} (h : slotId g1 a = slotId g2 b) :
    g1 = g2 ∧ a = b := by
  have hd := congrArg String.data h
  rw [slotId, slotId, String.data_append, String.data_append,
    String.data_append, String.data_append] at hd
  have h1 : g1.data ++ '_' :: (natStr a).data = g2.data ++ '_' :: (natStr b).data := by
    simpa [List.append_assoc] using hd
  have h2 := congrArg List.reverse h1
  rw [List.reverse_append, List.reverse_append, List.reverse_cons, List.reverse_cons] at h2
  have h3 : (natStr a).data.reverse ++ '_' :: g1.data.reverse
      = (natStr b).data.reverse ++ '_' :: g2.data.reverse := by
    simpa [List.append_assoc] using h2
  have hna : '_' ∉ (natStr a).data.reverse := fun hx =>
    natStr_no_underscore a (List.mem_reverse.mp hx)
  have hnb : '_' ∉ (natStr b).data.reverse := fun hx =>
    natStr_no_underscore b (List.mem_reverse.mp hx)
  rcases append_sep_inj hna hnb h3 with ⟨hn, hg⟩
  refine ⟨String.ext (List.reverse_injective hg), natStr_injective (String.ext ?_)⟩
  exact List.reverse_injective hn

/-- Mapping a function of the index over an enumerated list is mapping it
over the index range. -/
theorem enum_map_index {α β : Type} (l : List α) (f : ℕ → β) :
    l.enum.map (fun p => f p.1) = (List.range l.length).map f := by
  rw [← List.enum_map_fst l, List.map_map]
  rfl

/-- Length of a loop body mapped over an enumerated list. -/
theorem length_enum_map {α β : Type} (l : List α) (f : ℕ × α → β) :
    (l.enum.map f).length = l.length := by
  rw [List.length_map, List.enum_length]

/-- Entry `i` of a loop body mapped over an enumerated list. -/
theorem getElem_enum_map {α β : Type} (l : List α) (f : ℕ × α → β) (i : ℕ)
    (h : i < (l.enum.map f).length) (h' : i < l.length) :
    (l.enum.map f).get ⟨i, h⟩ = f (i, l.get ⟨i, h'⟩) := by
  rw [List.get_eq_getElem, List.get_eq_getElem, List.getElem_map, List.getElem_enum]

/-- Membership in a loop body mapped over an enumerated list. -/
theorem mem_enum_map {α β : Type} {l : List α} {f : ℕ × α → β} {b : β} :
    b ∈ l.enum.map f ↔ ∃ i, ∃ h : i < l.length, b = f (i, l.get ⟨i, h⟩) := by
  constructor
  · intro hb
    rcases List.mem_map.mp hb with ⟨p, hp, rfl⟩
    rcases List.mem_iff_get.mp hp with ⟨⟨i, hi⟩, hget⟩
    have hi' : i < l.length := by
      have := hi
      rwa [List.enum_length] at this
    refine ⟨i, hi', ?_⟩
    have : l.enum.get ⟨i, hi⟩ = (i, l.get ⟨i, hi'⟩) := by
      rw [List.get_eq_getElem, List.getElem_enum, List.get_eq_getElem]
    rw [← hget, this]
  · rintro ⟨i, h, rfl⟩
    apply List.mem_map.mpr
    have hi : i < l.enum.length := by rwa [List.enum_length]
    refine ⟨l.enum.get ⟨i, hi⟩, List.get_mem _ _ _, ?_⟩
    have : l.enum.get ⟨i, hi⟩ = (i, l.get ⟨i, h⟩) := by
      rw [List.get_eq_getElem, List.getElem_enum, List.get_eq_getElem]
    rw [this]

/-- C3: element ids are assigned sequentially in output order. Both assignment
sites (`IntelligentBBoxMerger.merge_detections` line 129 and
`run_parallel_detection_and_merge` lines 210-211) give the i-th merged
detection (0-based) the id `"M" ++ pad3 (i+1)`, so the id sequence is exactly
`M001, M002, …` with no gaps, the ids are pairwise distinct, and the
assignment is a pure function of the input list, hence identical on two runs
over an identical input. -/
theorem C3_sequential_merged_ids (merged merged' : List Detection) :
    (cleanMerged merged).map (fun d => d.m_id)
        = (List.range merged.length).map (fun i => some ("M" ++ pad3 (i + 1)))
  ∧ ((cleanMerged merged).map (fun d => d.m_id)).Nodup
  ∧ (updateMergedIds merged).map (fun d => d.m_id)
        = (List.range merged.length).map (fun i => some ("M" ++ pad3 (i + 1)))
  ∧ (merged = merged' → cleanMerged merged = cleanMerged merged') := by
  have hmap : (cleanMerged merged).map (fun d => d.m_id)
      = (List.range merged.length).map (fun i => some ("M" ++ pad3 (i + 1))) := by
    rw [cleanMerged, List.map_map]
    exact enum_map_index merged (fun i => some ("M" ++ pad3 (i + 1)))
  have hupd : (updateMergedIds merged).map (fun d => d.m_id)
      = (List.range merged.length).map (fun i => some ("M" ++ pad3 (i + 1))) := by
    rw [updateMergedIds, List.map_map]
    exact enum_map_index merged (fun i => some ("M" ++ pad3 (i + 1)))
  refine ⟨hmap, ?_, hupd, fun h => h ▸ rfl⟩
  rw [hmap]
  apply List.Nodup.map _ (List.nodup_range _)
  intro i j hij
  have h1 : "M" ++ pad3 (i + 1) = "M" ++ pad3 (j + 1) := by
    exact Option.some_injective _ hij
  have h2 : pad3 (i + 1) = pad3 (j + 1) := string_append_left_cancel h1
  have := pad3_injective h2
  omega

/-- C4: source-scoped sequential identifiers. `assign_intelligent_ids`
returns both sequences unchanged in length, gives the i-th YOLO detection
`y_id = "Y" ++ pad3 (i+1)`, the i-th OCR detection `o_id = "O" ++ pad3 (i+1)`,
and removes any pre-existing `id` key from every detection of both
sequences. -/
theorem C4_assign_intelligent_ids (ys os : List Detection) :
    ((assign_intelligent_ids ys os).1).length = ys.length
  ∧ ((assign_intelligent_ids ys os).2).length = os.length
  ∧ (∀ i (h : i < ys.length) (h' : i < ((assign_intelligent_ids ys os).1).length),
        (((assign_intelligent_ids ys os).1).get ⟨i, h'⟩).y_id = some ("Y" ++ pad3 (i + 1))
      ∧ (((assign_intelligent_ids ys os).1).get ⟨i, h'⟩).id = none)
  ∧ (∀ i (h : i < os.length) (h' : i < ((assign_intelligent_ids ys os).2).length),
        (((assign_intelligent_ids ys os).2).get ⟨i, h'⟩).o_id = some ("O" ++ pad3 (i + 1))
      ∧ (((assign_intelligent_ids ys os).2).get ⟨i, h'⟩).id = none) := by
  refine ⟨length_enum_map _ _, length_enum_map _ _, ?_, ?_⟩
  · intro i h h'
    have h2 : i < (ys.enum.map
        (fun p => { p.2 with y_id := some ("Y" ++ pad3 (p.1 + 1)), id := none })).length := h'
    have hg := getElem_enum_map ys _ i h2 h
    exact ⟨congrArg Detection.y_id hg, congrArg Detection.id hg⟩
  · intro i h h'
    have h2 : i < (os.enum.map
        (fun p => { p.2 with o_id := some ("O" ++ pad3 (p.1 + 1)), id := none })).length := h'
    have hg := getElem_enum_map os _ i h2 h
    exact ⟨congrArg Detection.o_id hg, congrArg Detection.id hg⟩

/-- C10: silent empty export on a missing processor. When the
`seraphine_analysis` has no `bbox_processor` entry,
`create_enhanced_seraphine_structure` returns the empty structure without
error, which is exactly what a processor holding zero groups also yields. -/
theorem C10_missing_processor_empty_export (dets : List Detection) :
    create_enhanced_seraphine_structure { bbox_processor := none } dets = []
  ∧ create_enhanced_seraphine_structure
      { bbox_processor := some { final_groups := [] } } dets = [] :=
  ⟨rfl, rfl⟩

/-- C5: GroupSlot id construction. For every group with label `G` the member
at 0-based position `k` is exported under the key `G ++ "_" ++ natStr (k+1)`
(one record per member), and — the group labels being the keys of a Python
dict, hence pairwise distinct — the record keys are pairwise distinct across
the whole export. -/
theorem C5_slot_ids_unique (bp : BBoxProcessor) (dets : List Detection)
    (hnd : (bp.final_groups.map Prod.fst).Nodup) :
    (create_enhanced_seraphine_structure { bbox_processor := some bp } dets).map Prod.fst
      = bp.final_groups.map Prod.fst
  ∧ List.Forall₂ (fun gb out => out.1 = gb.1
        ∧ out.2.map Prod.fst = (List.range gb.2.length).map (fun k => slotId gb.1 (k + 1))
        ∧ out.2.length = gb.2.length)
      bp.final_groups
      (create_enhanced_seraphine_structure { bbox_processor := some bp } dets)
  ∧ ((create_enhanced_seraphine_structure { bbox_processor := some bp } dets).flatMap
        (fun g => g.2.map Prod.fst)).Nodup := by
  have hE : create_enhanced_seraphine_structure { bbox_processor := some bp } dets
      = bp.final_groups.map (fun gb =>
          (gb.1, gb.2.enum.map (fun p => (slotId gb.1 (p.1 + 1), exportRecordOf dets p.2)))) :=
    rfl
  have hkeys : ∀ gb : String × List SeraphineBox,
      (gb.2.enum.map (fun p => (slotId gb.1 (p.1 + 1), exportRecordOf dets p.2))).map Prod.fst
        = (List.range gb.2.length).map (fun k => slotId gb.1 (k + 1)) := by
    intro gb
    rw [List.map_map]
    exact enum_map_index gb.2 (fun k => slotId gb.1 (k + 1))
  refine ⟨?_, ?_, ?_⟩
  · rw [hE, List.map_map]
    rfl
  · rw [hE, List.forall₂_map_right_iff, List.forall₂_same]
    intro gb _
    exact ⟨rfl, hkeys gb, length_enum_map _ _⟩
  · rw [hE, List.flatMap_map, List.nodup_flatMap]
    constructor
    · intro gb _
      rw [hkeys gb]
      refine List.Nodup.map ?_ (List.nodup_range _)
      intro a b hab
      have := (slotId_inj hab).2
      omega
    · have hp : List.Pairwise (fun a b : String × List SeraphineBox => a.1 ≠ b.1)
          bp.final_groups := by
        have := hnd
        rw [List.Nodup, List.pairwise_map] at this
        exact this
      refine hp.imp ?_
      intro a b hab
      intro key hk1 hk2
      dsimp only at hk1 hk2
      rw [hkeys a, List.mem_map] at hk1
      rw [hkeys b, List.mem_map] at hk2
      rcases hk1 with ⟨k1, _, hk1⟩
      rcases hk2 with ⟨k2, _, hk2⟩
      exact hab (slotId_inj (hk1.trans hk2.symm)).1

/-- C6: unannotated rendering defaults. Every exported record comes from a
member box of some group; when the box carries no `g_icon_name`/`g_brief`
attribute the record renders "unanalyzed" / "Not analyzed", and when the box
does carry the attribute its value is exported instead. -/
theorem C6_default_rendering (bp : BBoxProcessor) (dets : List Detection)
    (g : String × List (String × List (String × JVal)))
    (e : String × List (String × JVal))
    (hg : g ∈ create_enhanced_seraphine_structure { bbox_processor := some bp } dets)
    (he : e ∈ g.2) :
    ∃ gb ∈ bp.final_groups, ∃ b ∈ gb.2,
      e.2 = exportRecordOf dets b
      ∧ (b.g_icon_name = none → ("g_icon_name", JVal.str "unanalyzed") ∈ e.2)
      ∧ (b.g_brief = none → ("g_brief", JVal.str "Not analyzed") ∈ e.2)
      ∧ (∀ v, b.g_icon_name = some v → ("g_icon_name", JVal.str v) ∈ e.2)
      ∧ (∀ v, b.g_brief = some v → ("g_brief", JVal.str v) ∈ e.2) := by
  have hg' : g ∈ bp.final_groups.map (fun gb =>
      (gb.1, gb.2.enum.map (fun p => (slotId gb.1 (p.1 + 1), exportRecordOf dets p.2)))) := hg
  rcases List.mem_map.mp hg' with ⟨gb, hgb, rfl⟩
  rcases mem_enum_map.mp he with ⟨i, hi, rfl⟩
  refine ⟨gb, hgb, gb.2.get ⟨i, hi⟩, List.get_mem _ _ _, rfl, ?_, ?_, ?_, ?_⟩
  · intro hnone
    rw [List.get_eq_getElem] at hnone
    simp [exportRecordOf, hnone]
  · intro hnone
    rw [List.get_eq_getElem] at hnone
    simp [exportRecordOf, hnone]
  · intro v hv
    rw [List.get_eq_getElem] at hv
    simp [exportRecordOf, hv]
  · intro v hv
    rw [List.get_eq_getElem] at hv
    simp [exportRecordOf, hv]

/-- C6 witness: the concrete record of `boxEx` (which carries no annotation)
inside the concrete export. -/
theorem C6_default_rendering_witness :
    ∃ gb ∈ bpEx.final_groups, ∃ b ∈ gb.2,
      eEx.2 = exportRecordOf detsEx b
      ∧ (b.g_icon_name = none → ("g_icon_name", JVal.str "unanalyzed") ∈ eEx.2)
      ∧ (b.g_brief = none → ("g_brief", JVal.str "Not analyzed") ∈ eEx.2)
      ∧ (∀ v, b.g_icon_name = some v → ("g_icon_name", JVal.str v) ∈ eEx.2)
      ∧ (∀ v, b.g_brief = some v → ("g_brief", JVal.str v) ∈ eEx.2) :=
  C6_default_rendering bpEx detsEx gEx eEx (by decide) (by decide)

/-- C5 witness: on the concrete one-group processor the labels are distinct
and the exported slot keys are pairwise distinct. -/
theorem C5_slot_ids_unique_witness :
    (bpEx.final_groups.map Prod.fst).Nodup
  ∧ ((create_enhanced_seraphine_structure { bbox_processor := some bpEx } detsEx).flatMap
        (fun g => g.2.map Prod.fst)).Nodup :=
  ⟨by decide, (C5_slot_ids_unique bpEx detsEx (by decide)).2.2⟩

/-- C7 counterexample: on a concrete one-group input the serialized structure
is not a flat map keyed by GroupSlot id — its top-level key is the group id
"H1", not the GroupSlot id "H1_1" — and no record carries a `category`
field. -/
theorem C7_counterexample_nested_no_category :
    ((create_enhanced_seraphine_structure saEx detsEx).map Prod.fst = ["H1"])
  ∧ (∀ g ∈ create_enhanced_seraphine_structure saEx detsEx, ∀ e ∈ g.2,
        "category" ∉ e.2.map Prod.fst)
  ∧ ("H1" ≠ slotId "H1" 1) := by decide

/-- C7 amended: export record shape. The export is a nested structure — keyed
by group id at the top level, each group mapping GroupSlot ids (of the form
`label_k`) to records — and every record holds exactly the keys `bbox`,
`g_icon_name`, `g_brief`, `m_id`, `y_id`, `o_id`, `type` and `source` (no
separate group-category field: the category appears only in the label
prefix). When the `m_id` lookup succeeds the stored source ids are exported
verbatim under `y_id`/`o_id` (a present id is never replaced by null). -/
theorem C7_amended_export_contract (bp : BBoxProcessor) (dets : List Detection)
    (g : String × List (String × List (String × JVal)))
    (e : String × List (String × JVal))
    (hg : g ∈ create_enhanced_seraphine_structure { bbox_processor := some bp } dets)
    (he : e ∈ g.2) :
    (∃ boxes, (g.1, boxes) ∈ bp.final_groups)
  ∧ e.2.map Prod.fst
      = ["bbox", "g_icon_name", "g_brief", "m_id", "y_id", "o_id", "type", "source"]
  ∧ (∃ b k, 1 ≤ k ∧ e.1 = slotId g.1 k ∧ e.2 = exportRecordOf dets b)
  ∧ (∀ b, e.2 = exportRecordOf dets b →
      ∀ r, mIdToOriginal dets b.merged_id = some r →
        ("y_id", optStr r.y_id) ∈ e.2 ∧ ("o_id", optStr r.o_id) ∈ e.2) := by
  have hg' : g ∈ bp.final_groups.map (fun gb =>
      (gb.1, gb.2.enum.map (fun p => (slotId gb.1 (p.1 + 1), exportRecordOf dets p.2)))) := hg
  rcases List.mem_map.mp hg' with ⟨gb, hgb, rfl⟩
  rcases mem_enum_map.mp he with ⟨i, hi, rfl⟩
  refine ⟨⟨gb.2, hgb⟩, rfl, ⟨gb.2.get ⟨i, hi⟩, i + 1, by omega, rfl, rfl⟩, ?_⟩
  intro b hb r hr
  have h2 : exportRecordOf dets (gb.2.get ⟨i, hi⟩) = exportRecordOf dets b := hb
  rw [show ((gb.1, gb.2.enum.map (fun p =>
      (slotId gb.1 (p.1 + 1), exportRecordOf dets p.2))).1,
      exportRecordOf dets (i, gb.2.get ⟨i, hi⟩).2).2 = exportRecordOf dets b from hb]
  constructor
  · simp [exportRecordOf, hr]
  · simp [exportRecordOf, hr]

/-- C7 witness: the amended contract at the concrete one-group export. -/
theorem C7_amended_export_contract_witness :
    (∃ boxes, (gEx.1, boxes) ∈ bpEx.final_groups)
  ∧ eEx.2.map Prod.fst
      = ["bbox", "g_icon_name", "g_brief", "m_id", "y_id", "o_id", "type", "source"]
  ∧ (∃ b k, 1 ≤ k ∧ eEx.1 = slotId gEx.1 k ∧ eEx.2 = exportRecordOf detsEx b)
  ∧ (∀ b, eEx.2 = exportRecordOf detsEx b →
      ∀ r, mIdToOriginal detsEx b.merged_id = some r →
        ("y_id", optStr r.y_id) ∈ eEx.2 ∧ ("o_id", optStr r.o_id) ∈ eEx.2) :=
  C7_amended_export_contract bpEx detsEx gEx eEx (by decide) (by decide)

/-- Reading the survivor flag. -/
theorem isSurvivor_iff (iouT contT : ℚ) (ky : ℕ) (pool : List Detection)
    (i : Fin pool.length) :
    isSurvivor iouT contT ky pool i = true ↔
      ∀ j, (dupGraph iouT contT ky pool).Reachable i j →
        rankOf ky pool i ≤ rankOf ky pool j := by
  rw [isSurvivor, decide_eq_true_iff]

/-- The tie-break key is injective (its last component is the position). -/
theorem rankOf_injective (ky : ℕ) (pool : List Detection) :
    Function.Injective (rankOf ky pool) := by
  intro i j h
  simp only [rankOf] at h
  have h1 := toLex_inj.mp h
  have h2 := toLex_inj.mp (congrArg Prod.snd h1)
  have h3 := toLex_inj.mp (congrArg Prod.snd h2)
  exact Fin.ext (congrArg Prod.snd h3)

/-- Every vertex's connected duplicate group contains a survivor. -/
theorem exists_survivor_reachable (iouT contT : ℚ) (ky : ℕ) (pool : List Detection)
    (i : Fin pool.length) :
    ∃ m, isSurvivor iouT contT ky pool m = true
      ∧ (dupGraph iouT contT ky pool).Reachable i m := by
  have hne : (Finset.univ.filter
      (fun j => (dupGraph iouT contT ky pool).Reachable i j)).Nonempty :=
    ⟨i, Finset.mem_filter.mpr ⟨Finset.mem_univ i, SimpleGraph.Reachable.refl i⟩⟩
  rcases Finset.exists_min_image _ (rankOf ky pool) hne with ⟨m, hm, hmin⟩
  rw [Finset.mem_filter] at hm
  refine ⟨m, ?_, hm.2⟩
  rw [isSurvivor_iff]
  intro j hj
  exact hmin j (Finset.mem_filter.mpr ⟨Finset.mem_univ j, hm.2.trans hj⟩)

/-- Two survivors of the same connected duplicate group coincide. -/
theorem survivor_unique (iouT contT : ℚ) (ky : ℕ) (pool : List Detection)
    {i j : Fin pool.length}
    (hi : isSurvivor iouT contT ky pool i = true)
    (hj : isSurvivor iouT contT ky pool j = true)
    (hij : (dupGraph iouT contT ky pool).Reachable i j) : i = j := by
  rw [isSurvivor_iff] at hi hj
  exact rankOf_injective ky pool (le_antisymm (hi j hij) (hj i hij.symm))

/-- The number of emitted elements is the number of connected components of
the duplicate graph. -/
theorem mergeCore_length (iouT contT : ℚ) (ky : ℕ) (pool : List Detection) :
    (mergeCore iouT contT ky pool).length
      = Fintype.card (dupGraph iouT contT ky pool).ConnectedComponent := by
  rw [mergeCore, List.length_map]
  have hnd : ((List.finRange pool.length).filter
      (fun i => isSurvivor iouT contT ky pool i)).Nodup :=
    (List.nodup_finRange _).filter _
  rw [← List.toFinset_card_of_nodup hnd, List.toFinset_filter, List.toFinset_finRange,
    ← Finset.card_univ]
  refine Finset.card_bij
    (fun i _ => (dupGraph iouT contT ky pool).connectedComponentMk i) ?_ ?_ ?_
  · intro a _
    exact Finset.mem_univ _
  · intro a1 h1 a2 h2 h
    rw [Finset.mem_filter] at h1 h2
    exact survivor_unique iouT contT ky pool h1.2 h2.2
      ((SimpleGraph.ConnectedComponent.eq).mp h)
  · intro c _
    refine SimpleGraph.ConnectedComponent.ind (fun v => ?_) c
    rcases exists_survivor_reachable iouT contT ky pool v with ⟨m, hm, hvm⟩
    exact ⟨m, Finset.mem_filter.mpr ⟨Finset.mem_univ m, hm⟩,
      (SimpleGraph.ConnectedComponent.sound hvm).symm⟩

/-- Removing edges can only refine connected components: a spanning subgraph
has at least as many components. -/
theorem card_components_le {V : Type} [Fintype V] [DecidableEq V]
    {G1 G2 : SimpleGraph V} [DecidableRel G1.Adj] [DecidableRel G2.Adj] (h : G1 ≤ G2) :
    Fintype.card G2.ConnectedComponent ≤ Fintype.card G1.ConnectedComponent := by
  apply Fintype.card_le_of_surjective
    (SimpleGraph.ConnectedComponent.map (SimpleGraph.Hom.mapSpanningSubgraphs h))
  intro c'
  refine SimpleGraph.ConnectedComponent.ind (fun v => ⟨G1.connectedComponentMk v, ?_⟩) c'
  rw [SimpleGraph.ConnectedComponent.map_mk]
  rfl

/-- Raising the IoU threshold removes duplicate edges. -/
theorem dupGraph_mono (iouT1 iouT2 contT : ℚ) (ky : ℕ) (pool : List Detection)
    (h : iouT1 ≤ iouT2) :
    dupGraph iouT2 contT ky pool ≤ dupGraph iouT1 contT ky pool := by
  have hrel : ∀ a b : Fin pool.length,
      dupRel iouT2 contT ky pool a b → dupRel iouT1 contT ky pool a b := by
    intro a b hd
    obtain ⟨hx, hdp⟩ := hd
    refine ⟨hx, ?_⟩
    simp only [isDupPair] at hdp ⊢
    rcases hdp with hio | hc
    · exact Or.inl (le_trans h hio)
    · exact Or.inr hc
  intro i j hadj
  rw [dupGraph, SimpleGraph.fromRel_adj] at hadj ⊢
  exact ⟨hadj.1, hadj.2.imp (hrel i j) (hrel j i)⟩

/-- Every emitted element is one of the pooled raw detections, its record
preserved unchanged. -/
theorem mergeCore_subset (iouT contT : ℚ) (ky : ℕ) (pool : List Detection) :
    ∀ c ∈ mergeCore iouT contT ky pool, c ∈ pool := by
  intro c hc
  rw [mergeCore] at hc
  rcases List.mem_map.mp hc with ⟨i, _, rfl⟩
  exact List.get_mem _ _ _

/-- The cleaning loop body satisfies the per-element id contract. -/
theorem cleanedFrom_cleanDetection (i : ℕ) (d : Detection) :
    cleanedFrom d (cleanDetection i d) := by
  refine ⟨rfl, ?_, ?_⟩
  · intro hsrc y hy
    constructor
    · show (if d.source = some "yolo" then some (d.y_id.getD ("Y" ++ pad3 (i + 1)))
          else some "NA") = some y
      rw [if_pos hsrc, hy]
      rfl
    · show (if d.source = some "ocr_det" then some (d.o_id.getD ("O" ++ pad3 (i + 1)))
          else some "NA") = some "NA"
      rw [if_neg (by rw [hsrc]; decide)]
  · intro hsrc o ho
    constructor
    · show (if d.source = some "ocr_det" then some (d.o_id.getD ("O" ++ pad3 (i + 1)))
          else some "NA") = some o
      rw [if_pos hsrc, ho]
      rfl
    · show (if d.source = some "yolo" then some (d.y_id.getD ("Y" ++ pad3 (i + 1)))
          else some "NA") = some "NA"
      rw [if_neg (by rw [hsrc]; decide)]

/-- C2: source-id propagation of the cleaning stage. The i-th detection
emitted by `IntelligentBBoxMerger.merge_detections` is built from the i-th
detection of the parent merge: it keeps that detection's source; when the
source is "yolo" it carries that detection's `y_id` with `o_id = "NA"`, and
when the source is "ocr_det" it carries that detection's `o_id` with
`y_id = "NA"`. -/
theorem C2_source_tracking (cfg : MergerConfig) (ys os : List Detection) :
    List.Forall₂ cleanedFrom
      (BBoxMerger.merge_detections cfg ys os).1
      (IntelligentBBoxMerger.merge_detections cfg ys os).1 := by
  show List.Forall₂ cleanedFrom (BBoxMerger.merge_detections cfg ys os).1
    (cleanMerged (BBoxMerger.merge_detections cfg ys os).1)
  generalize (BBoxMerger.merge_detections cfg ys os).1 = merged
  rw [List.forall₂_iff_get]
  refine ⟨(length_enum_map merged _).symm, ?_⟩
  intro i h1 h2
  have hget := getElem_enum_map merged (fun p => cleanDetection p.1 p.2) i h2 h1
  rw [show (cleanMerged merged).get ⟨i, h2⟩
      = cleanDetection (i, merged.get ⟨i, h1⟩).1 (i, merged.get ⟨i, h1⟩).2 from hget]
  exact cleanedFrom_cleanDetection i (merged.get ⟨i, h1⟩)

/-- C1: every emitted element references at least one raw detection. When the
two input sequences are tagged with their detector sources and carry the ids
assigned by `assign_intelligent_ids`, no detection emitted by
`IntelligentBBoxMerger.merge_detections` has both `y_id` and `o_id` equal to
the sentinel "NA". -/
theorem C1_element_references_raw (cfg : MergerConfig) (ys os : List Detection)
    (hy : ∀ d ∈ ys, d.source = some "yolo")
    (ho : ∀ d ∈ os, d.source = some "ocr_det") :
    ∀ c ∈ (IntelligentBBoxMerger.merge_detections cfg
        (assign_intelligent_ids ys os).1 (assign_intelligent_ids ys os).2).1,
      ¬ (c.y_id = some "NA" ∧ c.o_id = some "NA") := by
  intro c hc
  have hc' : c ∈ cleanMerged (BBoxMerger.merge_detections cfg
      (assign_intelligent_ids ys os).1 (assign_intelligent_ids ys os).2).1 := hc
  rcases mem_enum_map.mp hc' with ⟨i, hi, rfl⟩
  have hd : (BBoxMerger.merge_detections cfg
        (assign_intelligent_ids ys os).1 (assign_intelligent_ids ys os).2).1.get ⟨i, hi⟩
      ∈ keepDets cfg (assign_intelligent_ids ys os).1
        ++ keepDets cfg (assign_intelligent_ids ys os).2 :=
    mergeCore_subset _ _ _ _ _ (List.get_mem _ _ _)
  set d := (BBoxMerger.merge_detections cfg
      (assign_intelligent_ids ys os).1 (assign_intelligent_ids ys os).2).1.get ⟨i, hi⟩ with hdd
  rw [List.mem_append] at hd
  rintro ⟨hyNA, hoNA⟩
  rcases hd with hmem | hmem
  · have hys : d ∈ (assign_intelligent_ids ys os).1 := (List.mem_filter.mp hmem).1
    rcases mem_enum_map.mp hys with ⟨j, hj, heq⟩
    have hsrc : d.source = some "yolo" := by
      rw [heq]
      show (ys.get ⟨j, hj⟩).source = some "yolo"
      exact hy _ (List.get_mem _ _ _)
    have hyid : d.y_id = some ("Y" ++ pad3 (j + 1)) := by rw [heq]
    have hcy : (cleanDetection (i, d).1 (i, d).2).y_id = some ("Y" ++ pad3 (j + 1)) := by
      show (if d.source = some "yolo" then some (d.y_id.getD ("Y" ++ pad3 ((i, d).1 + 1)))
          else some "NA") = some ("Y" ++ pad3 (j + 1))
      rw [if_pos hsrc, hyid]
      rfl
    rw [hcy] at hyNA
    exact tag_pad3_ne_NA "Y" rfl (j + 1) (Option.some_injective _ hyNA)
  · have hos : d ∈ (assign_intelligent_ids ys os).2 := (List.mem_filter.mp hmem).1
    rcases mem_enum_map.mp hos with ⟨j, hj, heq⟩
    have hsrc : d.source = some "ocr_det" := by
      rw [heq]
      show (os.get ⟨j, hj⟩).source = some "ocr_det"
      exact ho _ (List.get_mem _ _ _)
    have hoid : d.o_id = some ("O" ++ pad3 (j + 1)) := by rw [heq]
    have hco : (cleanDetection (i, d).1 (i, d).2).o_id = some ("O" ++ pad3 (j + 1)) := by
      show (if d.source = some "ocr_det" then some (d.o_id.getD ("O" ++ pad3 ((i, d).1 + 1)))
          else some "NA") = some ("O" ++ pad3 (j + 1))
      rw [if_pos hsrc, hoid]
      rfl
    rw [hco] at hoNA
    exact tag_pad3_ne_NA "O" rfl (j + 1) (Option.some_injective _ hoNA)

/-- C1 witness: a single tagged yolo detection and no ocr detections. -/
theorem C1_element_references_raw_witness :
    (∀ d ∈ [dEx], d.source = some "yolo")
  ∧ (∀ d ∈ ([] : List Detection), d.source = some "ocr_det")
  ∧ (∀ c ∈ (IntelligentBBoxMerger.merge_detections mcfgEx
        (assign_intelligent_ids [dEx] []).1 (assign_intelligent_ids [dEx] []).2).1,
      ¬ (c.y_id = some "NA" ∧ c.o_id = some "NA")) :=
  ⟨by decide, by decide,
   C1_element_references_raw mcfgEx [dEx] [] (by decide) (by decide)⟩

/-- C9: threshold monotonicity of fusion. For a fixed pair of input sequences
and configurations that agree except for the IoU threshold, the stricter
(larger) threshold never yields fewer merged elements. -/
theorem C9_threshold_monotonicity (cfg1 cfg2 : MergerConfig) (ys os : List Detection)
    (h : cfg1.iou_threshold ≤ cfg2.iou_threshold)
    (hc : cfg1.containment_threshold = cfg2.containment_threshold)
    (hm : cfg1.min_area = cfg2.min_area) :
    ((IntelligentBBoxMerger.merge_detections cfg1 ys os).1).length
      ≤ ((IntelligentBBoxMerger.merge_detections cfg2 ys os).1).length := by
  have hkeep : ∀ ds, keepDets cfg1 ds = keepDets cfg2 ds := by
    intro ds
    rw [keepDets, keepDets, hm]
  have hlen : ∀ cfg : MergerConfig,
      ((IntelligentBBoxMerger.merge_detections cfg ys os).1).length
        = (mergeCore cfg.iou_threshold cfg.containment_threshold (keepDets cfg ys).length
            (keepDets cfg ys ++ keepDets cfg os)).length := by
    intro cfg
    show (cleanMerged (mergeCore cfg.iou_threshold cfg.containment_threshold
        (keepDets cfg ys).length (keepDets cfg ys ++ keepDets cfg os))).length = _
    rw [cleanMerged, length_enum_map]
  rw [hlen cfg1, hlen cfg2, hkeep ys, hkeep os, hc, mergeCore_length, mergeCore_length]
  exact card_components_le
    (dupGraph_mono cfg1.iou_threshold cfg2.iou_threshold cfg2.containment_threshold _ _ h)

/-- C9 witness: two configurations differing only in the IoU threshold, on
empty inputs. -/
theorem C9_threshold_monotonicity_witness :
    (({ iou_threshold := 0, containment_threshold := 1, min_area := 1 } : MergerConfig).iou_threshold
      ≤ ({ iou_threshold := 1, containment_threshold := 1, min_area := 1 } : MergerConfig).iou_threshold)
  ∧ ((IntelligentBBoxMerger.merge_detections
        { iou_threshold := 0, containment_threshold := 1, min_area := 1 } [] []).1).length
      ≤ ((IntelligentBBoxMerger.merge_detections
        { iou_threshold := 1, containment_threshold := 1, min_area := 1 } [] []).1).length :=
  ⟨zero_le_one,
   C9_threshold_monotonicity
     { iou_threshold := 0, containment_threshold := 1, min_area := 1 }
     { iou_threshold := 1, containment_threshold := 1, min_area := 1 }
     [] [] zero_le_one rfl rfl⟩

/-- C8: configuration fail-fast validation. With an explicitly configured
merger IoU threshold, an out-of-range value makes `create_intelligent_merger`
fail with a `ConfigurationError` before any merger exists, and any
configuration it does accept has all its numeric parameters in range. -/
theorem C8_config_fail_fast (config : PipelineConfig) (t : ℚ)
    (ht : config.merger_iou_threshold = some t) :
    ((t < 0 ∨ 1 < t) → ∃ e, create_intelligent_merger config = Except.error e)
  ∧ (∀ cfg, create_intelligent_merger config = Except.ok cfg →
      0 ≤ cfg.iou_threshold ∧ cfg.iou_threshold ≤ 1
      ∧ 0 ≤ cfg.containment_threshold ∧ cfg.containment_threshold ≤ 1
      ∧ 0 < cfg.min_area) := by
  constructor
  · intro hbad
    rw [create_intelligent_merger, ht, Option.getD_some, BBoxMerger.make]
    rw [if_neg ?hneg]
    · exact ⟨_, rfl⟩
    case hneg =>
      rintro ⟨h0, h1⟩
      rcases hbad with hb | hb
      · exact absurd h0 (not_le.mpr hb)
      · exact absurd h1 (not_le.mpr hb)
  · intro cfg hok
    rw [create_intelligent_merger, ht, Option.getD_some, BBoxMerger.make] at hok
    by_cases h1 : 0 ≤ t ∧ t ≤ 1
    · rw [if_pos h1, if_pos (by norm_num), if_pos (by norm_num)] at hok
      have hcfg := Except.ok.inj hok
      rw [← hcfg]
      refine ⟨h1.1, h1.2, by norm_num, by norm_num, by norm_num⟩
    · rw [if_neg h1] at hok
      exact Except.noConfusion hok

/-- C8 witness: the configured threshold 2 is rejected. -/
theorem C8_config_fail_fast_witness :
    ({ merger_iou_threshold := some 2 } : PipelineConfig).merger_iou_threshold = some 2
  ∧ (((2:ℚ) < 0 ∨ (1:ℚ) < 2) →
      ∃ e, create_intelligent_merger { merger_iou_threshold := some 2 } = Except.error e)
  ∧ (∀ cfg, create_intelligent_merger { merger_iou_threshold := some 2 } = Except.ok cfg →
      0 ≤ cfg.iou_threshold ∧ cfg.iou_threshold ≤ 1
      ∧ 0 ≤ cfg.containment_threshold ∧ cfg.containment_threshold ≤ 1
      ∧ 0 < cfg.min_area) :=
  ⟨rfl, (C8_config_fail_fast { merger_iou_threshold := some 2 } 2 rfl).1,
   (C8_config_fail_fast { merger_iou_threshold := some 2 } 2 rfl).2⟩

/-- Sanity: the modelled renderings match Python's `str` and `"%03d"` on
sample values, and the two loops over a sample input produce the documented
ids. -/
theorem rendering_matches_python :
    natStr 0 = "0" ∧ natStr 12 = "12" ∧ pad3 5 = "005" ∧ pad3 37 = "037"
  ∧ pad3 123 = "123" ∧ pad3 1234 = "1234"
  ∧ (assign_intelligent_ids [{ source := some "yolo" }] []).1
      = [{ source := some "yolo", y_id := some "Y001" }]
  ∧ (cleanMerged [{ source := some "yolo", y_id := some "Y001" }]).map (fun d => d.m_id)
      = [some "M001"] := by
  refine ⟨?_, ?_, ?_, ?_, ?_, ?_, ?_, ?_⟩ <;> decide
